import Mathlib

set_option maxHeartbeats 1000000

set_option maxRecDepth 8000

/-! Shallow embedding of the wimlib capture-and-apply core from
`src/add_image.c` (dentry-tree builder, capture configuration, exclusion
matching) and `src/ntfs-apply.c` (NTFS apply engine).  Paths and pattern
strings are lists of characters, byte buffers are lists of naturals, and
the SHA-1 primitive is passed as a function parameter wherever the C code
hashes, since the digest routine lives outside the two embedded files.
Adapter I/O (source-file reads, NTFS attribute writes) is modelled as
succeeding; every failure path of the embedded code itself is an `Except`
error. -/

/-- Error kinds (`WIMLIB_ERR_*`) reachable in the embedded fragment.
`fuelExhausted` is not a wimlib error code: it marks non-termination of a
modelled recursion when the step budget runs out. -/
inductive WimErr where
  | invalidCaptureConfig
  | invalidDentry
  | invalidResourceHash
  | notDir
  | fuelExhausted
  deriving DecidableEq

/-- Lookup-table entry as seen by the apply engine (`struct lookup_table_entry`):
its recorded 20-byte SHA-1 digest and the uncompressed resource bytes that its
residence yields.  `read_wim_resource` (not under `src/`) is modelled from the
spec as reading slices of these bytes, always successfully. -/
structure WimLte where
  hash : List Nat
  content : List Nat
  deriving DecidableEq

/-- Declared uncompressed size of the resource (`wim_resource_size`). -/
def wim_resource_size (lte : WimLte) : Nat :=
  lte.content.length

/-- The chunked-copy loop of `extract_wim_resource_to_ntfs_attr`
(src/ntfs-apply.c lines 72-84): while bytes remain, read
`min remaining 32768` bytes (WIM_CHUNK_SIZE) at the current offset, feed them
to the streaming SHA-1 context, and write them to the NTFS attribute.
The streaming context is modelled as the accumulated list of hashed bytes;
the writes are modelled as the accumulated list of written chunks. -/
def extractGo (content : List Nat) (offset remaining : Nat)
    (ctx : List Nat) (written : List (List Nat)) : List Nat × List (List Nat) :=
  if _h : remaining = 0 then (ctx, written)
  else
    let toRead := min remaining 32768
    let buf := (content.drop offset).take toRead
    extractGo content (offset + toRead) (remaining - toRead) (ctx ++ buf) (written ++ [buf])
termination_by remaining
decreasing_by simp_wf; omega

/-- The sequence of chunks the extraction loop produces, written directly as a
recursion with no accumulators (used to state the chunking behaviour). -/
def wimChunks (content : List Nat) (offset remaining : Nat) : List (List Nat) :=
  if _h : remaining = 0 then []
  else
    ((content.drop offset).take (min remaining 32768)) ::
      wimChunks content (offset + min remaining 32768) (remaining - min remaining 32768)
termination_by remaining
decreasing_by simp_wf; omega

/-- `extract_wim_resource_to_ntfs_attr` (src/ntfs-apply.c lines 59-94): copy
the resource in 32 KiB chunks while hashing, then compare the streamed SHA-1
with the entry's recorded digest; on mismatch fail with
`WIMLIB_ERR_INVALID_RESOURCE_HASH`, otherwise return the written chunks. -/
def extract_wim_resource_to_ntfs_attr (sha1 : List Nat → List Nat) (lte : WimLte) :
    Except WimErr (List (List Nat)) :=
  let pr := extractGo lte.content 0 (wim_resource_size lte) [] []
  if sha1 pr.1 = lte.hash then Except.ok pr.2
  else Except.error WimErr.invalidResourceHash

/-- The reparse buffer that `apply_reparse_data` hands to
`ntfs_set_ntfs_reparse_data`: the 8-byte header `{u32 tag, u16 len, u16 0}`
(fields truncated to their machine widths) followed by the payload bytes. -/
structure ReparseBuf where
  rtag : Nat
  rlen : Nat
  rsvd : Nat
  payload : List Nat
  deriving DecidableEq

/-- `apply_reparse_data` (src/ntfs-apply.c lines 223-265): if the dentry has no
stream, fail with `WIMLIB_ERR_INVALID_DENTRY`; if the resource size is at least
0xFFFF bytes, fail with `WIMLIB_ERR_INVALID_DENTRY`; otherwise read the payload
(`read_full_wim_resource`, modelled as succeeding) and pass the header-prefixed
buffer to the ntfs-3g reparse ioctl (external, modelled as succeeding). -/
def apply_reparse_data (lte : Option WimLte) (tagv : Nat) : Except WimErr ReparseBuf :=
  match lte with
  | none => Except.error WimErr.invalidDentry
  | some l =>
    if wim_resource_size l ≥ 0xffff then Except.error WimErr.invalidDentry
    else Except.ok ⟨tagv % 2 ^ 32, wim_resource_size l % 2 ^ 16, 0, l.content⟩

/-- Case folding used by fnmatch's FNM_CASEFOLD flag. -/
def foldChar (c : Char) : Char :=
  c.toLower

/-- Scan a bracket expression body up to the closing bracket, returning the
member characters and the remainder of the pattern. -/
def bracketChop : List Char → Option (List Char × List Char)
  | [] => none
  | ']' :: t => some ([], t)
  | c :: t => (bracketChop t).map (fun pr => (c :: pr.1, pr.2))

/-- Split the pattern after an opening bracket into (negation flag, members,
rest); a bracket with no closing bracket yields `none` (the opening bracket is
then matched literally), and a closing bracket that is the first member
character is a literal member. -/
def splitBracket (l : List Char) : Option (Bool × List Char × List Char) :=
  match l with
  | '!' :: ']' :: t => (bracketChop t).map (fun pr => (true, ']' :: pr.1, pr.2))
  | '^' :: ']' :: t => (bracketChop t).map (fun pr => (true, ']' :: pr.1, pr.2))
  | '!' :: t => (bracketChop t).map (fun pr => (true, pr.1, pr.2))
  | '^' :: t => (bracketChop t).map (fun pr => (true, pr.1, pr.2))
  | ']' :: t => (bracketChop t).map (fun pr => (false, ']' :: pr.1, pr.2))
  | t => (bracketChop t).map (fun pr => (false, pr.1, pr.2))

/-- Does a character belong to a bracket-expression member list (ranges written
with a dash, comparisons case-folded)? -/
def memberMatch : List Char → Char → Bool
  | a :: '-' :: b :: rest, c =>
      (decide (foldChar a ≤ foldChar c) && decide (foldChar c ≤ foldChar b))
        || memberMatch rest c
  | a :: rest, c => (foldChar a == foldChar c) || memberMatch rest c
  | [], _ => false

/-- Modelled from the spec: POSIX `fnmatch` with `FNM_PATHNAME | FNM_CASEFOLD`
(a C-library routine external to the repository) — glob patterns with path-name
semantics and case folding, as the spec describes the pattern language.  A
slash is matched only by a literal slash: `*`, `?` and bracket expressions
never match `/`.  The structural fuel is one more than the total input length,
which every recursive call decreases, so the wrapper never exhausts it. -/
def fnmGo : Nat → List Char → List Char → Bool
  | 0, _, _ => false
  | _ + 1, [], s => s.isEmpty
  | fuel + 1, '*' :: ps, s =>
      fnmGo fuel ps s ||
        (match s with
         | [] => false
         | c :: cs => if c = '/' then false else fnmGo fuel ('*' :: ps) cs)
  | fuel + 1, '?' :: ps, s =>
      (match s with
       | [] => false
       | c :: cs => !(c == '/') && fnmGo fuel ps cs)
  | fuel + 1, '[' :: ps, s =>
      (match splitBracket ps with
       | none =>
         (match s with
          | [] => false
          | c :: cs => (foldChar c == '[') && fnmGo fuel ps cs)
       | some (neg, mem, rest) =>
         (match s with
          | [] => false
          | c :: cs => !(c == '/') && (memberMatch mem c != neg) && fnmGo fuel rest cs))
  | fuel + 1, '\\' :: p :: ps, s =>
      (match s with
       | [] => false
       | c :: cs => (foldChar c == foldChar p) && fnmGo fuel ps cs)
  | fuel + 1, p :: ps, s =>
      (match s with
       | [] => false
       | c :: cs => (foldChar c == foldChar p) && fnmGo fuel ps cs)

/-- fnmatch with FNM_PATHNAME and FNM_CASEFOLD as invoked by `match_pattern`. -/
def fnmatch_pc (pat s : List Char) : Bool :=
  fnmGo (pat.length + s.length + 1) pat s

/-- Modelled from the spec: `path_basename` (a wimlib utility not under
`src/`) — the final path component, ignoring trailing slashes. -/
def path_basename (p : List Char) : List Char :=
  ((p.reverse.dropWhile (fun c => c == '/')).takeWhile (fun c => !(c == '/'))).reverse

/-- The four pattern lists of `struct capture_config` plus the source prefix
set by `capture_config_set_prefix`. -/
structure CaptureConfig where
  exclusionList : List (List Char)
  exclusionException : List (List Char)
  compressionExclusionList : List (List Char)
  alignmentList : List (List Char)
  pfx : List Char
  deriving DecidableEq

/-- `capture_config_set_prefix` (src/add_image.c lines 1104-1115). -/
def capture_config_set_prefix (config : CaptureConfig) (p : List Char) : CaptureConfig :=
  { config with pfx := p }

/-- `match_pattern` (src/add_image.c lines 1117-1146): a pattern starting with
a slash is matched against the whole path, a pattern containing a slash
elsewhere against the path with its first character removed, and any other
pattern against the basename. -/
def match_pattern (path pbase : List Char) (pats : List (List Char)) : Bool :=
  pats.any (fun pat =>
    let s :=
      if pat.head? == some '/' then path
      else if pat.contains '/' then path.drop 1
      else pbase
    fnmatch_pc pat s)

/-- `exclude_path` (src/add_image.c lines 1157-1170): optionally strip the
configured prefix (when the next path byte is a slash), then exclude exactly
when the exclusion list matches and the exclusion-exception list does not.
The basename is taken from the original path, as in the source. -/
def exclude_path (config : CaptureConfig) (path : List Char) (ex : Bool) : Bool :=
  let pbase := path_basename path
  let sp :=
    if ex && (path.take config.pfx.length == config.pfx)
        && ((path.drop config.pfx.length).head? == some '/')
    then path.drop config.pfx.length
    else path
  match_pattern sp pbase config.exclusionList
    && !(match_pattern sp pbase config.exclusionException)

/-- Exclusion semantics as the specification words it: strip the prefix when
stripping is requested and the path begins with the prefix followed by a
slash, then the path is excluded iff it matches some exclusion pattern and no
exclusion-exception pattern, rooted patterns against the path from the capture
root, other slash-containing patterns against the path relative to the capture
root, and all remaining patterns against the basename. -/
def spec_excludes (config : CaptureConfig) (path : List Char) (ex : Bool) : Bool :=
  let sp :=
    if ex && (path.take (config.pfx.length + 1) == config.pfx ++ ['/'])
    then path.drop config.pfx.length
    else path
  match_pattern sp (path_basename path) config.exclusionList
    && !(match_pattern sp (path_basename path) config.exclusionException)

def srcKeepLog : List Char :=
  ['/', 's', 'r', 'c', '/', 'k', 'e', 'e', 'p', '.', 'l', 'o', 'g']

def srcOtherLog : List Char :=
  ['/', 's', 'r', 'c', '/', 'o', 't', 'h', 'e', 'r', '.', 'l', 'o', 'g']

def patStarLog : List Char :=
  ['*', '.', 'l', 'o', 'g']

def patKeepLog : List Char :=
  ['/', 'k', 'e', 'e', 'p', '.', 'l', 'o', 'g']

/-- The capture configuration of spec scenario 4. -/
def cfgScenario4 : CaptureConfig :=
  ⟨[patStarLog], [patKeepLog], [], [], ['/', 's', 'r', 'c']⟩

/-- Split a text at its first newline: `some (line, rest)` when a newline
exists (`memchr(p, '\n', bytes_remaining)`), `none` otherwise. -/
def splitNL : List Char → Option (List Char × List Char)
  | [] => none
  | c :: rest =>
      if c = '\n' then some ([], rest)
      else (splitNL rest).map (fun pr => (c :: pr.1, pr.2))

/-- Drop a trailing carriage return from a line (`if (*(eol - 1) == '\r') eol--`). -/
def stripCR (l : List Char) : List Char :=
  if l.getLast? == some '\r' then l.dropLast else l

/-- Translate backslashes to forward slashes. -/
def slashify (l : List Char) : List Char :=
  l.map (fun c => if c == '\\' then '/' else c)

/-- Remove a leading drive letter: only when the line is longer than two
characters, starts with an ASCII letter and has a colon second
(`eol - p > 2 && isalpha(*p) && *(p + 1) == ':'`). -/
def driveStrip (l : List Char) : List Char :=
  match l with
  | a :: b :: c :: rest => if a.isAlpha && (b == ':') then c :: rest else l
  | _ => l

/-- The per-line text transformation of `init_capture_config`: strip a
trailing carriage return, translate backslashes, drop a drive letter. -/
def processPatternLine (l : List Char) : List Char :=
  driveStrip (slashify (stripCR l))

/-- Which pattern list subsequent lines join (`enum pattern_type`);
`noSection` is the initial `NONE`. -/
inductive PatType where
  | noSection
  | exclusionList
  | exclusionException
  | compressionExclusionList
  | alignmentList
  deriving DecidableEq

/-- Append a pattern to the list selected by the current section
(`pattern_list_add_pattern` on the matching field). -/
def addPat (config : CaptureConfig) (ty : PatType) (pat : List Char) : CaptureConfig :=
  match ty with
  | PatType.noSection => config
  | PatType.exclusionList => { config with exclusionList := config.exclusionList ++ [pat] }
  | PatType.exclusionException =>
      { config with exclusionException := config.exclusionException ++ [pat] }
  | PatType.compressionExclusionList =>
      { config with compressionExclusionList := config.compressionExclusionList ++ [pat] }
  | PatType.alignmentList => { config with alignmentList := config.alignmentList ++ [pat] }

def hdrExclusionList : List Char :=
  ['[', 'E', 'x', 'c', 'l', 'u', 's', 'i', 'o', 'n', 'L', 'i', 's', 't', ']']

def hdrExclusionException : List Char :=
  ['[', 'E', 'x', 'c', 'l', 'u', 's', 'i', 'o', 'n',
   'E', 'x', 'c', 'e', 'p', 't', 'i', 'o', 'n', ']']

def hdrCompressionExclusionList : List Char :=
  ['[', 'C', 'o', 'm', 'p', 'r', 'e', 's', 's', 'i', 'o', 'n',
   'E', 'x', 'c', 'l', 'u', 's', 'i', 'o', 'n', 'L', 'i', 's', 't', ']']

def hdrAlignmentList : List Char :=
  ['[', 'A', 'l', 'i', 'g', 'n', 'm', 'e', 'n', 't', 'L', 'i', 's', 't', ']']

/-- The line loop of `init_capture_config` (src/add_image.c lines 1006-1102).
Each iteration takes the next newline-terminated line; text left over with no
newline is `WIMLIB_ERR_INVALID_CAPTURE_CONFIG`.  Empty lines are skipped.  A
processed line equal to a known section header switches the section; an
unknown line that starts with an opening bracket and contains a closing
bracket is an error; any other line is an error before the first section and
a pattern afterwards.  The structural fuel exceeds the number of lines, which
each iteration decreases, so the wrapper never exhausts it
(`fuelExhausted` is unreachable from `init_capture_config`). -/
def init_capture_config_go : Nat → PatType → CaptureConfig → List Char →
    Except WimErr CaptureConfig
  | 0, _, _, _ => Except.error WimErr.fuelExhausted
  | fuel + 1, ty, config, rem =>
    match splitNL rem with
    | none =>
        if rem.isEmpty then Except.ok config
        else Except.error WimErr.invalidCaptureConfig
    | some (line, rest) =>
        if line.isEmpty then init_capture_config_go fuel ty config rest
        else
          let q := processPatternLine line
          if q = hdrExclusionList then
            init_capture_config_go fuel PatType.exclusionList config rest
          else if q = hdrExclusionException then
            init_capture_config_go fuel PatType.exclusionException config rest
          else if q = hdrCompressionExclusionList then
            init_capture_config_go fuel PatType.compressionExclusionList config rest
          else if q = hdrAlignmentList then
            init_capture_config_go fuel PatType.alignmentList config rest
          else if (q.head? == some '[') && q.contains ']' then
            Except.error WimErr.invalidCaptureConfig
          else
            match ty with
            | PatType.noSection => Except.error WimErr.invalidCaptureConfig
            | _ => init_capture_config_go fuel ty (addPat config ty q) rest

/-- `init_capture_config` on a whole configuration text, starting outside any
section with all four lists empty. -/
def init_capture_config (txt : List Char) : Except WimErr CaptureConfig :=
  init_capture_config_go (txt.length + 1) PatType.noSection ⟨[], [], [], [], []⟩ txt

/-- The configuration carrying four empty pattern lists and no prefix, as
`init_capture_config` starts from (`memset(config, 0, sizeof(*config))`). -/
def emptyCaptureConfig : CaptureConfig :=
  ⟨[], [], [], [], []⟩

/-- Residence descriptor of a lookup-table entry produced during capture
(`resource_location` plus the associated path). -/
inductive Residence where
  | inSourceFile (path : List Char)
  deriving DecidableEq

/-- Capture-side lookup-table entry: digest key, reference count, declared
uncompressed size (`resource_entry.original_size` and `.size`, both set to the
file size), and residence. -/
structure StreamEntry where
  hash : List Nat
  refcnt : Nat
  size : Nat
  residence : Residence
  deriving DecidableEq

/-- `__lookup_resource`: find the entry with the given digest. -/
def lookupResource (table : List StreamEntry) (h : List Nat) : Option StreamEntry :=
  table.find? (fun e => e.hash == h)

/-- `lte->refcnt++` on the entry holding the given digest. -/
def bumpRef : List StreamEntry → List Nat → List StreamEntry
  | [], _ => []
  | e :: t, h => if e.hash == h then { e with refcnt := e.refcnt + 1 } :: t else e :: bumpRef t h

/-- A `WIMLIB_PROGRESS_MSG_SCAN_DENTRY` progress message
(`info.scan.cur_path`, `info.scan.excluded`). -/
structure ScanEvent where
  curPath : List Char
  excluded : Bool
  deriving DecidableEq

/-- Shared capture state: the lookup table, the security set (never touched by
the UNIX capture path, which ignores its `sd` argument), and the progress
messages delivered so far. -/
structure CapState where
  table : List StreamEntry
  sdSet : List (List Nat)
  events : List ScanEvent
  deriving DecidableEq

/-- The add-image flags the UNIX capture path consults:
`WIMLIB_ADD_IMAGE_FLAG_ROOT`, `WIMLIB_ADD_IMAGE_FLAG_VERBOSE`, and whether a
progress callback was supplied.  (`SOURCE`, `DEREFERENCE` and `UNIX_DATA` do
not affect the embedded fragment: the modelled filesystem has no symlinks and
UNIX-data capture is out of scope of the claims.) -/
structure AddFlags where
  isRoot : Bool
  verbose : Bool
  hasProgress : Bool
  deriving DecidableEq

/-- An on-disk filesystem object as the UNIX capture path distinguishes them:
a regular file with its content bytes, or a directory with its named children
in readdir order.  (Symbolic links and special files take other branches of
`build_dentry_tree` that no claim exercises.) -/
inductive FsObj where
  | regular (content : List Nat)
  | directory (children : List (List Char × FsObj))

/-- An in-memory WIM dentry with its inode data inlined: name, attribute
bits, the unnamed stream binding (`i_lte`, recorded by digest), and the
children (kept in attach order; the source keys them by name in a tree, an
ordering no claim depends on). -/
inductive Dentry where
  | node (fileName : List Char) (attrs : Nat) (lte : Option (List Nat))
      (children : List Dentry)

def FILE_ATTRIBUTE_NORMAL : Nat := 128

def FILE_ATTRIBUTE_DIRECTORY : Nat := 16

/-- Deliver a SCAN_DENTRY progress message when the VERBOSE flag is set and a
progress function was supplied. -/
def pushScan (st : CapState) (fl : AddFlags) (p : List Char) (exc : Bool) : CapState :=
  if fl.verbose && fl.hasProgress then
    { st with events := st.events ++ [⟨p, exc⟩] }
  else st

mutual

/-- The UNIX branch of `build_dentry_tree` (src/add_image.c lines 560-938):
filter against the capture config (error `WIMLIB_ERR_INVALID_CAPTURE_CONFIG`
when the root itself is excluded, otherwise a null dentry for an excluded
entry), emit the SCAN_DENTRY message, stat (the modelled filesystem always
succeeds; a regular file as capture root fails `WIMLIB_ERR_NOTDIR` after the
dereferencing re-stat, as in the source with no symlink involved), clear the
ROOT/SOURCE flags, then dispatch: a non-empty regular file is hashed with
SHA-1 and dedup-bound against the lookup table (`__lookup_resource`,
`lte->refcnt++` on a hit, a fresh entry of refcount 1 — modelled from the
spec, `new_lookup_table_entry` is not under src/ — with residence
`IN_SOURCE_FILE(path)` and declared size on a miss); a directory recurses
over its children.  On error the partial subtree is dropped; no claim
concerns the post-error state, so the rollback of `free_dentry_tree` is not
replayed. -/
def build_dentry_tree (sha1 : List Nat → List Nat) (config : CaptureConfig)
    (fl : AddFlags) (pathD : List Char) (node : FsObj) (st : CapState) :
    Except WimErr (Option Dentry × CapState) :=
  if exclude_path config pathD true then
    if fl.isRoot then Except.error WimErr.invalidCaptureConfig
    else Except.ok (none, pushScan st fl pathD true)
  else
    let st1 := pushScan st fl pathD false
    match node with
    | FsObj.regular c =>
        if fl.isRoot then Except.error WimErr.notDir
        else if c.length = 0 then
          Except.ok (some (Dentry.node (path_basename pathD) FILE_ATTRIBUTE_NORMAL none []),
            st1)
        else
          match lookupResource st1.table (sha1 c) with
          | some _ =>
              Except.ok
                (some (Dentry.node (path_basename pathD) FILE_ATTRIBUTE_NORMAL
                  (some (sha1 c)) []),
                 { st1 with table := bumpRef st1.table (sha1 c) })
          | none =>
              Except.ok
                (some (Dentry.node (path_basename pathD) FILE_ATTRIBUTE_NORMAL
                  (some (sha1 c)) []),
                 { st1 with table :=
                    st1.table ++ [⟨sha1 c, 1, c.length, Residence.inSourceFile pathD⟩] })
    | FsObj.directory entries =>
        match build_children sha1 config { fl with isRoot := false } pathD entries [] st1 with
        | Except.error e => Except.error e
        | Except.ok (chs, st2) =>
            Except.ok
              (some (Dentry.node (path_basename pathD) FILE_ATTRIBUTE_DIRECTORY none chs),
               st2)
termination_by sizeOf node

/-- The readdir loop of the directory branch: skip `.` and `..`, recurse on
each child under `path/name`, attach each non-null returned dentry, stop on
the first error. -/
def build_children (sha1 : List Nat → List Nat) (config : CaptureConfig)
    (fl : AddFlags) (pathD : List Char) (entries : List (List Char × FsObj))
    (acc : List Dentry) (st : CapState) :
    Except WimErr (List Dentry × CapState) :=
  match entries with
  | [] => Except.ok (acc, st)
  | (nm, obj) :: rest =>
      if nm = ['.'] ∨ nm = ['.', '.'] then
        build_children sha1 config fl pathD rest acc st
      else
        match build_dentry_tree sha1 config fl (pathD ++ '/' :: nm) obj st with
        | Except.error e => Except.error e
        | Except.ok (none, st2) => build_children sha1 config fl pathD rest acc st2
        | Except.ok (some child, st2) =>
            build_children sha1 config fl pathD rest (acc ++ [child]) st2
termination_by sizeOf entries

end

/-- A dentry as the NTFS apply engine's hard-link logic sees it: its identity,
its parent directory, its short-name length (`short_name_len`, nonzero means a
DOS name is present) and its full path (`full_path_utf8`).  Identities, parent
directories and paths are abstracted to numbers. -/
structure ADentry where
  did : Nat
  parent : Nat
  shortLen : Nat
  fullPath : Nat
  deriving DecidableEq

/-- The `extracted_file` stamps: which dentries have recorded an extraction
path, and which path. -/
abbrev ExtMap := List (Nat × Nat)

def lookupExt (m : ExtMap) (i : Nat) : Option Nat :=
  (m.find? (fun q => q.1 == i)).map (fun q => q.2)

/-- Observable actions of the apply engine that the ordering claims speak
about: recording `extracted_file`, creating the NTFS object (`ntfs_create`),
writing its data streams, and creating a hard link to a previously recorded
path (`wim_apply_hardlink_ntfs`).  Attribute, security, reparse and DOS-name
application are not traced; no claim orders them. -/
inductive AEvent where
  | recorded (did fpath : Nat)
  | created (did : Nat)
  | streamsWritten (did : Nat)
  | linked (did target : Nat)
  deriving DecidableEq

/-- The other members of a dentry's hard-link group
(`list_for_each_entry(other, &dentry->link_group_list, ...)` walks the
circular list and never yields the dentry itself). -/
def linkGroupOthers (g : List ADentry) (d : ADentry) : List ADentry :=
  g.filter (fun o => !(o.did == d.did))

/-- The post-preapply body of `do_wim_apply_dentry_ntfs` for a non-directory
dentry (src/ntfs-apply.c lines 365-414): if some other group member already
has `extracted_file` recorded, make a hard link to that path and skip stream
writes; otherwise record `extracted_file`, create the file and write its
streams (`ntfs_create` and `ntfs_link` are ntfs-3g calls, modelled as
succeeding). -/
def apply_body (g : List ADentry) (d : ADentry) (st : ExtMap) (tr : List AEvent) :
    Except WimErr (ExtMap × List AEvent) :=
  match (linkGroupOthers g d).find? (fun o => (lookupExt st o.did).isSome) with
  | some o => Except.ok (st, tr ++ [AEvent.linked d.did ((lookupExt st o.did).getD 0)])
  | none =>
      Except.ok ((d.did, d.fullPath) :: st,
        tr ++ [AEvent.recorded d.did d.fullPath, AEvent.created d.did,
               AEvent.streamsWritten d.did])

/-- `do_wim_apply_dentry_ntfs` for a non-directory dentry, including
`preapply_dentry_with_dos_name` (src/ntfs-apply.c lines 278-334 and 345-414):
scan the other group members in the same parent for a non-empty short name —
two of them is `WIMLIB_ERR_INVALID_DENTRY` — and if the one found is not yet
extracted, apply it first (recursively); then run the hard-link/create body.
The structural fuel bounds the preapply recursion depth; `fuelExhausted`
models the C code's unbounded recursion when it never terminates. -/
def do_wim_apply_dentry_ntfs (g : List ADentry) :
    Nat → ExtMap → List AEvent → ADentry → Except WimErr (ExtMap × List AEvent)
  | 0, _, _, _ => Except.error WimErr.fuelExhausted
  | fuel + 1, st, tr, d =>
    let shortOthers := (linkGroupOthers g d).filter
      (fun o => (o.parent == d.parent) && !(o.shortLen == 0))
    if 2 ≤ shortOthers.length then Except.error WimErr.invalidDentry
    else
      match shortOthers.head? with
      | some e =>
          if (lookupExt st e.did).isNone then
            match do_wim_apply_dentry_ntfs g fuel st tr e with
            | Except.error er => Except.error er
            | Except.ok (st2, tr2) => apply_body g d st2 tr2
          else apply_body g d st tr
      | none => apply_body g d st tr

/-- The pass-1 tree walk restricted to one hard-link group
(`wim_apply_dentry_ntfs` on each member in visit order): a member whose
`extracted_file` is already recorded is skipped, every other member is
applied. -/
def wim_apply_link_group (g : List ADentry) (fuel : Nat) :
    ExtMap → List AEvent → List ADentry → Except WimErr (ExtMap × List AEvent)
  | st, tr, [] => Except.ok (st, tr)
  | st, tr, d :: ds =>
      if (lookupExt st d.did).isSome then wim_apply_link_group g fuel st tr ds
      else
        match do_wim_apply_dentry_ntfs g fuel st tr d with
        | Except.error er => Except.error er
        | Except.ok (st2, tr2) => wim_apply_link_group g fuel st2 tr2 ds

/-- The primary member of a hard-link group for a given visit order: the
member carrying a DOS name in the first visited member's directory when one
exists, otherwise the first visited member itself. -/
def primaryOf (g : List ADentry) : ADentry :=
  match g with
  | [] => ⟨0, 0, 0, 0⟩
  | z :: _ =>
      match g.find? (fun m => (m.parent == z.parent) && !(m.shortLen == 0)) with
      | some e => e
      | none => z

def c4d : ADentry := ⟨1, 0, 24, 11⟩

def c4e : ADentry := ⟨2, 0, 24, 12⟩

theorem extractGo_spec (content : List Nat) :
    ∀ remaining offset ctx written,
      extractGo content offset remaining ctx written =
        (ctx ++ (content.drop offset).take remaining,
         written ++ wimChunks content offset remaining) := by
  intro remaining
  induction remaining using Nat.strong_induction_on with
  | _ r ih =>
    intro offset ctx written
    rw [extractGo, wimChunks]
    by_cases h : r = 0
    · simp [h]
    · simp only [h, dite_false]
      rw [ih _ (by omega)]
      have h1 : (content.drop offset).take r
          = (content.drop offset).take (min r 32768)
            ++ ((content.drop offset).drop (min r 32768)).take (r - min r 32768) := by
        rw [← List.take_add]
        congr 1
        omega
      have h2 : (content.drop offset).drop (min r 32768)
          = content.drop (offset + min r 32768) := by
        rw [List.drop_drop]
      rw [h1, h2]
      simp

theorem wimChunks_flatten (content : List Nat) :
    ∀ remaining offset,
      (wimChunks content offset remaining).flatten = (content.drop offset).take remaining := by
  intro remaining
  induction remaining using Nat.strong_induction_on with
  | _ r ih =>
    intro offset
    rw [wimChunks]
    by_cases h : r = 0
    · simp [h]
    · simp only [h, dite_false, List.flatten_cons]
      rw [ih _ (by omega)]
      have h1 : (content.drop offset).take r
          = (content.drop offset).take (min r 32768)
            ++ ((content.drop offset).drop (min r 32768)).take (r - min r 32768) := by
        rw [← List.take_add]
        congr 1
        omega
      have h2 : (content.drop offset).drop (min r 32768)
          = content.drop (offset + min r 32768) := by
        rw [List.drop_drop]
      rw [h1, h2]

theorem wimChunks_le (content : List Nat) :
    ∀ remaining offset, ∀ ch ∈ wimChunks content offset remaining, ch.length ≤ 32768 := by
  intro remaining
  induction remaining using Nat.strong_induction_on with
  | _ r ih =>
    intro offset ch hch
    rw [wimChunks] at hch
    by_cases h : r = 0
    · simp [h] at hch
    · simp only [h, dite_false, List.mem_cons] at hch
      rcases hch with hch | hch
      · subst hch
        calc ((content.drop offset).take (min r 32768)).length
            ≤ min r 32768 := List.length_take_le _ _
          _ ≤ 32768 := by omega
      · exact ih _ (by omega) _ _ hch

theorem wimChunks_ne_nil (content : List Nat) (remaining offset : Nat)
    (h : remaining ≠ 0) : wimChunks content offset remaining ≠ [] := by
  rw [wimChunks]
  simp [h]

theorem wimChunks_full (content : List Nat) :
    ∀ remaining offset, offset + remaining ≤ content.length →
      ∀ ch ∈ (wimChunks content offset remaining).dropLast, ch.length = 32768 := by
  intro remaining
  induction remaining using Nat.strong_induction_on with
  | _ r ih =>
    intro offset hlen ch hch
    rw [wimChunks] at hch
    by_cases h : r = 0
    · simp [h] at hch
    · simp only [h, dite_false] at hch
      by_cases hr : r ≤ 32768
      · have hz : r - min r 32768 = 0 := by omega
        rw [hz] at hch
        rw [wimChunks] at hch
        simp at hch
      · have hne : wimChunks content (offset + min r 32768) (r - min r 32768) ≠ [] :=
          wimChunks_ne_nil content _ _ (by omega)
        rw [List.dropLast_cons_of_ne_nil hne] at hch
        rcases List.mem_cons.mp hch with hch | hch
        · subst hch
          rw [List.length_take, List.length_drop]
          omega
        · exact ih _ (by omega) _ (by omega) _ hch

/-- C2: for every stream the NTFS apply engine extracts, the bytes are copied
in 32 KiB chunks (every chunk at most 32768 bytes, every chunk but the last
exactly 32768 bytes, their concatenation exactly the resource content), the
SHA-1 digest is computed over exactly the copied bytes, and the result is
success precisely when that digest equals the entry's recorded digest —
otherwise extraction fails with `WIMLIB_ERR_INVALID_RESOURCE_HASH`, never
silently correcting the mismatch. -/
theorem c2_extract_resource_hash_check (sha1 : List Nat → List Nat) (lte : WimLte) :
    extract_wim_resource_to_ntfs_attr sha1 lte =
      (if sha1 lte.content = lte.hash
       then Except.ok (wimChunks lte.content 0 lte.content.length)
       else Except.error WimErr.invalidResourceHash) ∧
    (wimChunks lte.content 0 lte.content.length).flatten = lte.content ∧
    (∀ ch ∈ wimChunks lte.content 0 lte.content.length, ch.length ≤ 32768) ∧
    (∀ ch ∈ (wimChunks lte.content 0 lte.content.length).dropLast, ch.length = 32768) := by
  refine ⟨?_, ?_, ?_, ?_⟩
  · rw [extract_wim_resource_to_ntfs_attr, wim_resource_size, extractGo_spec]
    simp
  · rw [wimChunks_flatten]
    simp
  · exact wimChunks_le lte.content lte.content.length 0
  · exact wimChunks_full lte.content lte.content.length 0 (by omega)

/-- Witness for C2 at a concrete two-byte resource. -/
theorem c2_extract_resource_hash_check_witness :
    (wimChunks [5, 6] 0 2).flatten = [5, 6] :=
  (c2_extract_resource_hash_check (fun l => l) ⟨[1], [5, 6]⟩).2.1

/-- C3 counterexample: a reparse payload of 16 KiB + 1 bytes (16385 bytes) is
accepted by `apply_reparse_data` and written with the 8-byte header, not
rejected as the claim states. -/
theorem c3_reparse_16385_accepted :
    apply_reparse_data (some ⟨[0], List.replicate 16385 7⟩) 3 =
      Except.ok ⟨3, 16385, 0, List.replicate 16385 7⟩ := by
  have hlen : (List.replicate 16385 (7 : Nat)).length = 16385 :=
    List.length_replicate 16385 7
  generalize List.replicate 16385 (7 : Nat) = p at hlen ⊢
  rw [apply_reparse_data]
  norm_num [wim_resource_size, hlen]

/-- C3 (amended): a reparse payload of exactly 16 KiB is accepted and written
with the 8-byte header `{u32 tag, u16 len, u16 0}`, and so is a payload of
16 KiB + 1 bytes; a payload is rejected (`WIMLIB_ERR_INVALID_DENTRY`) exactly
when its length is at least 0xFFFF bytes, so every accepted payload has length
at most 0xFFFE. -/
theorem c3_reparse_length_bound (lte : WimLte) (tagv : Nat) :
    (apply_reparse_data (some lte) tagv =
        Except.ok ⟨tagv % 2 ^ 32, wim_resource_size lte % 2 ^ 16, 0, lte.content⟩ ↔
      wim_resource_size lte ≤ 0xfffe) ∧
    (apply_reparse_data (some lte) tagv = Except.error WimErr.invalidDentry ↔
      0xffff ≤ wim_resource_size lte) ∧
    apply_reparse_data none tagv = Except.error WimErr.invalidDentry ∧
    apply_reparse_data (some ⟨[0], List.replicate 16384 7⟩) 3 =
      Except.ok ⟨3, 16384, 0, List.replicate 16384 7⟩ := by
  have h16 : apply_reparse_data (some ⟨[0], List.replicate 16384 7⟩) 3 =
      Except.ok ⟨3, 16384, 0, List.replicate 16384 7⟩ := by
    have hlen : (List.replicate 16384 (7 : Nat)).length = 16384 :=
      List.length_replicate 16384 7
    generalize List.replicate 16384 (7 : Nat) = p at hlen ⊢
    rw [apply_reparse_data]
    norm_num [wim_resource_size, hlen]
  refine ⟨?_, ?_, rfl, h16⟩
  · rw [apply_reparse_data]
    by_cases h : wim_resource_size lte ≥ 0xffff
    · simp only [h, ge_iff_le, if_true, if_pos h]
      constructor
      · intro hc
        cases hc
      · intro hc
        omega
    · simp only [if_neg h]
      constructor
      · intro _
        omega
      · intro _
        simp
  · rw [apply_reparse_data]
    by_cases h : wim_resource_size lte ≥ 0xffff
    · simp only [if_pos h]
      constructor
      · intro _
        omega
      · intro _
        trivial
    · simp only [if_neg h]
      constructor
      · intro hc
        cases hc
      · intro hc
        omega

/-- Witness for C3 at a concrete empty payload. -/
theorem c3_reparse_length_bound_witness :
    apply_reparse_data (some ⟨[9], [4, 4]⟩) 7 = Except.ok ⟨7, 2, 0, [4, 4]⟩ :=
  ((c3_reparse_length_bound ⟨[9], [4, 4]⟩ 7).1).mpr (by norm_num [wim_resource_size])

theorem begins_with_slash_iff (path pfx : List Char) :
    path.take (pfx.length + 1) = pfx ++ ['/'] ↔
      (path.take pfx.length = pfx ∧ (path.drop pfx.length).head? = some '/') := by
  rw [List.take_add]
  constructor
  · intro h
    have hlen : (path.take pfx.length).length = pfx.length := by
      have hl := congrArg List.length h
      simp only [List.length_append, List.length_take, List.length_cons,
        List.length_nil] at hl
      simp only [List.length_take]
      omega
    obtain ⟨h1, h2⟩ := List.append_inj h (by rw [hlen])
    refine ⟨h1, ?_⟩
    cases hd : path.drop pfx.length with
    | nil => rw [hd] at h2; simp at h2
    | cons c t =>
      rw [hd] at h2
      simp only [List.take_succ_cons, List.take_zero] at h2
      cases h2
      rfl
  · rintro ⟨h1, h2⟩
    cases hd : path.drop pfx.length with
    | nil => rw [hd] at h2; simp at h2
    | cons c t =>
      rw [hd] at h2
      simp only [List.head?_cons, Option.some.injEq] at h2
      simp [h1, hd, h2]

theorem pushScan_table (st : CapState) (fl : AddFlags) (p : List Char) (b : Bool) :
    (pushScan st fl p b).table = st.table := by
  rw [pushScan]
  split <;> rfl

theorem pushScan_sdSet (st : CapState) (fl : AddFlags) (p : List Char) (b : Bool) :
    (pushScan st fl p b).sdSet = st.sdSet := by
  rw [pushScan]
  split <;> rfl

theorem pushScan_silent (stx : CapState) (b1 b2 : Bool) (q : List Char) (e : Bool)
    (hv : b2 = false) :
    pushScan stx ⟨b1, b2, false⟩ q e = stx := by
  rw [pushScan, hv]
  rfl

theorem exclude_path_empty_config (q : List Char) (b : Bool) :
    exclude_path emptyCaptureConfig q b = false := by
  simp [exclude_path, match_pattern, emptyCaptureConfig]

theorem buildRegular_eq (sha1 : List Nat → List Nat) (config : CaptureConfig)
    (fl : AddFlags) (p : List Char) (c : List Nat) (st : CapState)
    (hex : exclude_path config p true = false) (hr : fl.isRoot = false) (hc : c ≠ []) :
    build_dentry_tree sha1 config fl p (FsObj.regular c) st =
      (match lookupResource st.table (sha1 c) with
       | some _ =>
          Except.ok
            (some (Dentry.node (path_basename p) FILE_ATTRIBUTE_NORMAL (some (sha1 c)) []),
             { pushScan st fl p false with table := bumpRef st.table (sha1 c) })
       | none =>
          Except.ok
            (some (Dentry.node (path_basename p) FILE_ATTRIBUTE_NORMAL (some (sha1 c)) []),
             { pushScan st fl p false with table :=
                st.table ++ [⟨sha1 c, 1, c.length, Residence.inSourceFile p⟩] })) := by
  rw [build_dentry_tree]
  rw [if_neg (by rw [hex]; exact Bool.false_ne_true)]
  simp only []
  rw [if_neg (by rw [hr]; exact Bool.false_ne_true)]
  rw [if_neg (fun hh => hc (List.length_eq_zero.mp hh))]
  rw [pushScan_table]

theorem buildDirectory_eq (sha1 : List Nat → List Nat) (config : CaptureConfig)
    (fl : AddFlags) (pathD : List Char) (entries : List (List Char × FsObj))
    (st st2 : CapState) (chs : List Dentry)
    (hex : exclude_path config pathD true = false)
    (hch : build_children sha1 config { fl with isRoot := false } pathD entries []
        (pushScan st fl pathD false) = Except.ok (chs, st2)) :
    build_dentry_tree sha1 config fl pathD (FsObj.directory entries) st =
      Except.ok
        (some (Dentry.node (path_basename pathD) FILE_ATTRIBUTE_DIRECTORY none chs),
         st2) := by
  rw [build_dentry_tree]
  rw [if_neg (by rw [hex]; exact Bool.false_ne_true)]
  simp only []
  rw [hch]

/-- C6: `exclude_path` returns true exactly when the (prefix-stripped, when
requested and applicable) path matches some exclusion pattern and no
exclusion-exception pattern, with rooted patterns matched against the path
from the capture root, other slash-containing patterns against the path
relative to the capture root, and bare patterns against the basename, all
case-folded; and on spec scenario 4, `/src/keep.log` is kept while
`/src/other.log` is excluded. -/
theorem c6_exclude_path_semantics (config : CaptureConfig) (path : List Char) (ex : Bool) :
    exclude_path config path ex = spec_excludes config path ex ∧
    exclude_path cfgScenario4 srcKeepLog true = false ∧
    exclude_path cfgScenario4 srcOtherLog true = true ∧
    build_dentry_tree (fun l => l) cfgScenario4 ⟨true, false, false⟩ ['/', 's', 'r', 'c']
        (FsObj.directory
          [(['k', 'e', 'e', 'p', '.', 'l', 'o', 'g'], FsObj.regular [1]),
           (['o', 't', 'h', 'e', 'r', '.', 'l', 'o', 'g'], FsObj.regular [2])])
        ⟨[], [], []⟩ =
      Except.ok
        (some (Dentry.node (path_basename ['/', 's', 'r', 'c']) FILE_ATTRIBUTE_DIRECTORY none
           [Dentry.node ['k', 'e', 'e', 'p', '.', 'l', 'o', 'g'] FILE_ATTRIBUTE_NORMAL
              (some [1]) []]),
         ⟨[⟨[1], 1, 1, Residence.inSourceFile
             ['/', 's', 'r', 'c', '/', 'k', 'e', 'e', 'p', '.', 'l', 'o', 'g']⟩],
          [], []⟩) := by
  refine ⟨?_, by decide, by decide, ?_⟩
  pick_goal 2
  · have h3 : build_children (fun l => l) cfgScenario4 ⟨false, false, false⟩
        ['/', 's', 'r', 'c'] []
        [Dentry.node ['k', 'e', 'e', 'p', '.', 'l', 'o', 'g'] FILE_ATTRIBUTE_NORMAL
          (some [1]) []]
        ⟨[⟨[1], 1, 1, Residence.inSourceFile
            ['/', 's', 'r', 'c', '/', 'k', 'e', 'e', 'p', '.', 'l', 'o', 'g']⟩], [], []⟩ =
        Except.ok
          ([Dentry.node ['k', 'e', 'e', 'p', '.', 'l', 'o', 'g'] FILE_ATTRIBUTE_NORMAL
              (some [1]) []],
           ⟨[⟨[1], 1, 1, Residence.inSourceFile
              ['/', 's', 'r', 'c', '/', 'k', 'e', 'e', 'p', '.', 'l', 'o', 'g']⟩], [], []⟩) := by
      rw [build_children]
    have h2 : build_children (fun l => l) cfgScenario4 ⟨false, false, false⟩
        ['/', 's', 'r', 'c'] [(['o', 't', 'h', 'e', 'r', '.', 'l', 'o', 'g'], FsObj.regular [2])]
        [Dentry.node ['k', 'e', 'e', 'p', '.', 'l', 'o', 'g'] FILE_ATTRIBUTE_NORMAL
          (some [1]) []]
        ⟨[⟨[1], 1, 1, Residence.inSourceFile
            ['/', 's', 'r', 'c', '/', 'k', 'e', 'e', 'p', '.', 'l', 'o', 'g']⟩], [], []⟩ =
        Except.ok
          ([Dentry.node ['k', 'e', 'e', 'p', '.', 'l', 'o', 'g'] FILE_ATTRIBUTE_NORMAL
              (some [1]) []],
           ⟨[⟨[1], 1, 1, Residence.inSourceFile
              ['/', 's', 'r', 'c', '/', 'k', 'e', 'e', 'p', '.', 'l', 'o', 'g']⟩], [], []⟩) := by
      rw [build_children]
      rw [if_neg (by decide)]
      rw [build_dentry_tree]
      rw [if_pos (by decide)]
      rw [if_neg (by exact Bool.false_ne_true)]
      rw [pushScan_silent _ _ _ _ _ rfl]
      exact h3
    have h1 : build_children (fun l => l) cfgScenario4 ⟨false, false, false⟩
        ['/', 's', 'r', 'c']
        [(['k', 'e', 'e', 'p', '.', 'l', 'o', 'g'], FsObj.regular [1]),
         (['o', 't', 'h', 'e', 'r', '.', 'l', 'o', 'g'], FsObj.regular [2])]
        [] ⟨[], [], []⟩ =
        Except.ok
          ([Dentry.node ['k', 'e', 'e', 'p', '.', 'l', 'o', 'g'] FILE_ATTRIBUTE_NORMAL
              (some [1]) []],
           ⟨[⟨[1], 1, 1, Residence.inSourceFile
              ['/', 's', 'r', 'c', '/', 'k', 'e', 'e', 'p', '.', 'l', 'o', 'g']⟩], [], []⟩) := by
      rw [build_children]
      rw [if_neg (by decide)]
      rw [buildRegular_eq (fun l => l) cfgScenario4 ⟨false, false, false⟩
        (['/', 's', 'r', 'c'] ++ '/' :: ['k', 'e', 'e', 'p', '.', 'l', 'o', 'g']) [1]
        ⟨[], [], []⟩ (by decide) rfl (by decide)]
      simp only [lookupResource, List.find?_nil]
      rw [pushScan_silent _ _ _ _ _ rfl]
      exact h2
    exact buildDirectory_eq (fun l => l) cfgScenario4 ⟨true, false, false⟩
      ['/', 's', 'r', 'c']
      [(['k', 'e', 'e', 'p', '.', 'l', 'o', 'g'], FsObj.regular [1]),
       (['o', 't', 'h', 'e', 'r', '.', 'l', 'o', 'g'], FsObj.regular [2])]
      ⟨[], [], []⟩ _ _ (by decide)
      (by rw [pushScan_silent ⟨[], [], []⟩ true false ['/', 's', 'r', 'c'] false rfl]
          exact h1)
  have hc : (ex && (path.take config.pfx.length == config.pfx)
        && ((path.drop config.pfx.length).head? == some '/'))
      = (ex && (path.take (config.pfx.length + 1) == config.pfx ++ ['/'])) := by
    cases ex
    · simp
    · simp only [Bool.true_and]
      refine Bool.eq_iff_iff.mpr ?_
      simp only [Bool.and_eq_true, beq_iff_eq]
      constructor
      · rintro ⟨h1, h2⟩
        exact (begins_with_slash_iff path config.pfx).mpr ⟨h1, h2⟩
      · intro h
        exact (begins_with_slash_iff path config.pfx).mp h
  simp only [exclude_path, spec_excludes]
  rw [hc]

theorem splitNL_append (line rest : List Char) (h : line.contains '\n' = false) :
    splitNL (line ++ '\n' :: rest) = some (line, rest) := by
  induction line with
  | nil => rfl
  | cons c t ih =>
    simp only [List.contains_cons, Bool.or_eq_false_iff, beq_eq_false_iff_ne] at h
    obtain ⟨hc, ht⟩ := h
    rw [List.cons_append, splitNL]
    rw [if_neg (fun hh => hc (hh.symm))]
    rw [ih ht]
    rfl

theorem splitNL_eq_none (l : List Char) (h : l.contains '\n' = false) :
    splitNL l = none := by
  induction l with
  | nil => rfl
  | cons c t ih =>
    simp only [List.contains_cons, Bool.or_eq_false_iff, beq_eq_false_iff_ne] at h
    obtain ⟨hc, ht⟩ := h
    rw [splitNL]
    rw [if_neg (fun hh => hc (hh.symm))]
    rw [ih ht]
    rfl

/-- C9: capture-config parsing switches sections on the four known bracketed
headers, fails with `WIMLIB_ERR_INVALID_CAPTURE_CONFIG` on any other
bracketed line and on any non-empty, non-header line before the first
section header, appends every other non-empty line — backslashes normalized
and a leading drive letter stripped — to the list of the most recent
section, skips empty lines, and tolerates a trailing carriage return; a
concrete config illustrates each behaviour. -/
theorem c9_capture_config_parsing (fuel : Nat) (ty : PatType) (config : CaptureConfig)
    (line rest : List Char) (hne : line.isEmpty = false)
    (hnl : line.contains '\n' = false) :
    (processPatternLine line = hdrExclusionList →
      init_capture_config_go (fuel + 1) ty config (line ++ '\n' :: rest) =
        init_capture_config_go fuel PatType.exclusionList config rest) ∧
    (processPatternLine line = hdrExclusionException →
      init_capture_config_go (fuel + 1) ty config (line ++ '\n' :: rest) =
        init_capture_config_go fuel PatType.exclusionException config rest) ∧
    (processPatternLine line = hdrCompressionExclusionList →
      init_capture_config_go (fuel + 1) ty config (line ++ '\n' :: rest) =
        init_capture_config_go fuel PatType.compressionExclusionList config rest) ∧
    (processPatternLine line = hdrAlignmentList →
      init_capture_config_go (fuel + 1) ty config (line ++ '\n' :: rest) =
        init_capture_config_go fuel PatType.alignmentList config rest) ∧
    (processPatternLine line ≠ hdrExclusionList →
      processPatternLine line ≠ hdrExclusionException →
      processPatternLine line ≠ hdrCompressionExclusionList →
      processPatternLine line ≠ hdrAlignmentList →
      (((processPatternLine line).head? == some '[')
          && (processPatternLine line).contains ']') = true →
      init_capture_config_go (fuel + 1) ty config (line ++ '\n' :: rest) =
        Except.error WimErr.invalidCaptureConfig) ∧
    (processPatternLine line ≠ hdrExclusionList →
      processPatternLine line ≠ hdrExclusionException →
      processPatternLine line ≠ hdrCompressionExclusionList →
      processPatternLine line ≠ hdrAlignmentList →
      (((processPatternLine line).head? == some '[')
          && (processPatternLine line).contains ']') = false →
      ty = PatType.noSection →
      init_capture_config_go (fuel + 1) ty config (line ++ '\n' :: rest) =
        Except.error WimErr.invalidCaptureConfig) ∧
    (processPatternLine line ≠ hdrExclusionList →
      processPatternLine line ≠ hdrExclusionException →
      processPatternLine line ≠ hdrCompressionExclusionList →
      processPatternLine line ≠ hdrAlignmentList →
      (((processPatternLine line).head? == some '[')
          && (processPatternLine line).contains ']') = false →
      ty ≠ PatType.noSection →
      init_capture_config_go (fuel + 1) ty config (line ++ '\n' :: rest) =
        init_capture_config_go fuel ty (addPat config ty (processPatternLine line)) rest) ∧
    (∀ l : List Char, stripCR (l ++ ['\r']) = l) ∧
    (init_capture_config_go (fuel + 1) ty config ('\n' :: rest) =
      init_capture_config_go fuel ty config rest) ∧
    init_capture_config
        (hdrExclusionList ++ '\r' :: '\n' ::
          'C' :: ':' :: '\\' :: 'f' :: 'o' :: 'o' :: '\n' :: []) =
      Except.ok ⟨[['/', 'f', 'o', 'o']], [], [], [], []⟩ ∧
    init_capture_config ('[' :: 'B' :: 'o' :: 'g' :: 'u' :: 's' :: ']' :: '\n' :: []) =
      Except.error WimErr.invalidCaptureConfig ∧
    init_capture_config ('p' :: '\n' :: []) =
      Except.error WimErr.invalidCaptureConfig := by
  have hsp := splitNL_append line rest hnl
  refine ⟨?_, ?_, ?_, ?_, ?_, ?_, ?_, ?_, ?_, by rfl, by rfl, by rfl⟩
  · intro h
    simp only [init_capture_config_go, hsp, hne, Bool.false_eq_true, if_false, h]
    simp
  · intro h
    simp only [init_capture_config_go, hsp, hne, Bool.false_eq_true, if_false, h]
    simp [hdrExclusionException, hdrExclusionList]
  · intro h
    simp only [init_capture_config_go, hsp, hne, Bool.false_eq_true, if_false, h]
    simp [hdrCompressionExclusionList, hdrExclusionList, hdrExclusionException]
  · intro h
    simp only [init_capture_config_go, hsp, hne, Bool.false_eq_true, if_false, h]
    simp [hdrAlignmentList, hdrExclusionList, hdrExclusionException,
      hdrCompressionExclusionList]
  · intro h1 h2 h3 h4 hb
    simp only [init_capture_config_go, hsp, hne, Bool.false_eq_true, if_false]
    rw [if_neg h1, if_neg h2, if_neg h3, if_neg h4, if_pos hb]
  · intro h1 h2 h3 h4 hb hty
    subst hty
    simp only [init_capture_config_go, hsp, hne, Bool.false_eq_true, if_false]
    rw [if_neg h1, if_neg h2, if_neg h3, if_neg h4,
      if_neg (by rw [hb]; exact Bool.false_ne_true)]
  · intro h1 h2 h3 h4 hb hty
    cases ty
    case noSection => exact absurd rfl hty
    all_goals
      simp only [init_capture_config_go, hsp, hne, Bool.false_eq_true, if_false]
      rw [if_neg h1, if_neg h2, if_neg h3, if_neg h4,
        if_neg (by rw [hb]; exact Bool.false_ne_true)]
  · intro l
    rw [stripCR]
    rw [if_pos (by simp)]
    simp
  · simp only [init_capture_config_go]
    have hsp0 : splitNL ('\n' :: rest) = some ([], rest) := by
      rw [splitNL]
      simp
    rw [hsp0]
    simp

/-- Witness for C9: processing the ExclusionList header line switches the
section. -/
theorem c9_capture_config_parsing_witness :
    init_capture_config_go 4 PatType.noSection emptyCaptureConfig
        (hdrExclusionList ++ '\n' :: []) =
      init_capture_config_go 3 PatType.exclusionList emptyCaptureConfig [] :=
  (c9_capture_config_parsing 3 PatType.noSection emptyCaptureConfig
      hdrExclusionList [] (by decide) (by decide)).1 (by decide)

/-- C10: any text left over whose final line is not newline-terminated makes
capture-config parsing fail with `WIMLIB_ERR_INVALID_CAPTURE_CONFIG`, even
when everything before it is well-formed. -/
theorem c10_final_newline_required (fuel : Nat) (ty : PatType) (config : CaptureConfig)
    (tl : List Char) (h1 : tl.isEmpty = false) (h2 : tl.contains '\n' = false) :
    init_capture_config_go (fuel + 1) ty config tl =
      Except.error WimErr.invalidCaptureConfig ∧
    init_capture_config (hdrExclusionList ++ '\n' :: 'f' :: 'o' :: 'o' :: []) =
      Except.error WimErr.invalidCaptureConfig := by
  constructor
  · have hsp : splitNL tl = none := splitNL_eq_none tl h2
    simp only [init_capture_config_go, hsp, h1, Bool.false_eq_true, if_false]
  · rfl

/-- Witness for C10 at a concrete one-character leftover line. -/
theorem c10_final_newline_required_witness :
    init_capture_config_go 1 PatType.noSection emptyCaptureConfig ['x'] =
      Except.error WimErr.invalidCaptureConfig :=
  (c10_final_newline_required 0 PatType.noSection emptyCaptureConfig ['x']
      (by decide) (by decide)).1



/-- C7: when the entry being captured is excluded by the capture config,
`build_dentry_tree` fails with `WIMLIB_ERR_INVALID_CAPTURE_CONFIG` if the
ROOT flag is set, and otherwise succeeds with a null dentry while leaving the
lookup table and the security set untouched. -/
theorem c7_excluded_entry (sha1 : List Nat → List Nat) (config : CaptureConfig)
    (fl : AddFlags) (p : List Char) (node : FsObj) (st : CapState)
    (hex : exclude_path config p true = true) :
    (fl.isRoot = true →
      build_dentry_tree sha1 config fl p node st =
        Except.error WimErr.invalidCaptureConfig) ∧
    (fl.isRoot = false →
      build_dentry_tree sha1 config fl p node st =
        Except.ok (none, pushScan st fl p true)) ∧
    (pushScan st fl p true).table = st.table ∧
    (pushScan st fl p true).sdSet = st.sdSet := by
  refine ⟨?_, ?_, pushScan_table st fl p true, pushScan_sdSet st fl p true⟩
  · intro hr
    rw [build_dentry_tree]
    rw [if_pos hex, if_pos hr]
  · intro hr
    rw [build_dentry_tree]
    rw [if_pos hex, if_neg (by rw [hr]; exact Bool.false_ne_true)]

/-- Witness for C7 on a concrete excluded path. -/
theorem c7_excluded_entry_witness :
    build_dentry_tree (fun l => l) cfgScenario4 ⟨true, false, false⟩ srcOtherLog
        (FsObj.regular [1]) ⟨[], [], []⟩ =
      Except.error WimErr.invalidCaptureConfig :=
  (c7_excluded_entry (fun l => l) cfgScenario4 ⟨true, false, false⟩ srcOtherLog
      (FsObj.regular [1]) ⟨[], [], []⟩ (by decide)).1 rfl

/-- C8 (amended): when a non-root entry is excluded and the VERBOSE flag is
set and a progress function was supplied, `build_dentry_tree` appends a
SCAN_DENTRY message carrying the current path with `excluded = true` and
returns a null dentry. -/
theorem c8_scan_dentry_event (sha1 : List Nat → List Nat) (config : CaptureConfig)
    (fl : AddFlags) (p : List Char) (node : FsObj) (st : CapState)
    (hex : exclude_path config p true = true) (hr : fl.isRoot = false)
    (hv : fl.verbose = true) (hp : fl.hasProgress = true) :
    build_dentry_tree sha1 config fl p node st =
      Except.ok (none, { st with events := st.events ++ [⟨p, true⟩] }) := by
  rw [build_dentry_tree]
  rw [if_pos hex, if_neg (by rw [hr]; exact Bool.false_ne_true)]
  rw [pushScan, if_pos (by rw [hv, hp]; rfl)]

/-- Witness for C8's amended statement on a concrete excluded path. -/
theorem c8_scan_dentry_event_witness :
    build_dentry_tree (fun l => l) cfgScenario4 ⟨false, true, true⟩ srcOtherLog
        (FsObj.regular [1]) ⟨[], [], []⟩ =
      Except.ok (none, ⟨[], [], [⟨srcOtherLog, true⟩]⟩) :=
  c8_scan_dentry_event (fun l => l) cfgScenario4 ⟨false, true, true⟩ srcOtherLog
    (FsObj.regular [1]) ⟨[], [], []⟩ (by decide) rfl rfl rfl

/-- C8 counterexample: an excluded non-root entry captured without the
VERBOSE flag produces no SCAN_DENTRY message at all — the claim's
unconditional "emits a SCAN_DENTRY progress event" is false. -/
theorem c8_no_event_without_verbose :
    build_dentry_tree (fun l => l) cfgScenario4 ⟨false, false, true⟩ srcOtherLog
        (FsObj.regular [1]) ⟨[], [], []⟩ =
      Except.ok (none, ⟨[], [], []⟩) := by
  rw [build_dentry_tree]
  rw [if_pos (by decide), if_neg (by exact Bool.false_ne_true)]
  rw [pushScan]
  rfl


/-- C1: capturing a non-empty regular file hashes its whole content; a hit in
the lookup table bumps that entry's refcount and binds the inode's unnamed
stream to it, a miss inserts a fresh entry with residence
`IN_SOURCE_FILE(path)`, declared size equal to the file size and refcount 1,
and binds it; consequently capturing a directory holding two files with
byte-identical content yields exactly one StreamEntry, refcount 2, referenced
by both dentries. -/
theorem c1_regular_file_dedup (sha1 : List Nat → List Nat) (config : CaptureConfig)
    (fl : AddFlags) (p : List Char) (c : List Nat) (st : CapState)
    (rp n1 n2 : List Char)
    (hex : exclude_path config p true = false) (hr : fl.isRoot = false) (hc : c ≠ [])
    (h1a : n1 ≠ ['.']) (h1b : n1 ≠ ['.', '.'])
    (h2a : n2 ≠ ['.']) (h2b : n2 ≠ ['.', '.']) :
    (∀ e, lookupResource st.table (sha1 c) = some e →
      build_dentry_tree sha1 config fl p (FsObj.regular c) st =
        Except.ok
          (some (Dentry.node (path_basename p) FILE_ATTRIBUTE_NORMAL (some (sha1 c)) []),
           { pushScan st fl p false with table := bumpRef st.table (sha1 c) })) ∧
    (lookupResource st.table (sha1 c) = none →
      build_dentry_tree sha1 config fl p (FsObj.regular c) st =
        Except.ok
          (some (Dentry.node (path_basename p) FILE_ATTRIBUTE_NORMAL (some (sha1 c)) []),
           { pushScan st fl p false with table :=
              st.table ++ [⟨sha1 c, 1, c.length, Residence.inSourceFile p⟩] })) ∧
    build_dentry_tree sha1 emptyCaptureConfig ⟨true, false, false⟩ rp
        (FsObj.directory [(n1, FsObj.regular c), (n2, FsObj.regular c)]) ⟨[], [], []⟩ =
      Except.ok
        (some (Dentry.node (path_basename rp) FILE_ATTRIBUTE_DIRECTORY none
           [Dentry.node (path_basename (rp ++ '/' :: n1)) FILE_ATTRIBUTE_NORMAL
              (some (sha1 c)) [],
            Dentry.node (path_basename (rp ++ '/' :: n2)) FILE_ATTRIBUTE_NORMAL
              (some (sha1 c)) []]),
         ⟨[⟨sha1 c, 2, c.length, Residence.inSourceFile (rp ++ '/' :: n1)⟩], [], []⟩) := by
  refine ⟨?_, ?_, ?_⟩
  · intro e he
    rw [buildRegular_eq sha1 config fl p c st hex hr hc, he]
  · intro he
    rw [buildRegular_eq sha1 config fl p c st hex hr hc, he]
  · rw [build_dentry_tree]
    rw [if_neg (by rw [exclude_path_empty_config]; exact Bool.false_ne_true)]
    simp only []
    rw [pushScan_silent _ _ _ _ _ rfl]
    rw [build_children]
    rw [if_neg (not_or.mpr ⟨h1a, h1b⟩)]
    rw [buildRegular_eq sha1 emptyCaptureConfig _ _ c _
      (exclude_path_empty_config _ _) rfl hc]
    simp only [lookupResource, List.find?_nil]
    rw [pushScan_silent _ _ _ _ _ rfl]
    simp only [List.nil_append]
    rw [build_children]
    rw [if_neg (not_or.mpr ⟨h2a, h2b⟩)]
    rw [buildRegular_eq sha1 emptyCaptureConfig _ _ c _
      (exclude_path_empty_config _ _) rfl hc]
    simp only [lookupResource, List.find?_cons, beq_self_eq_true]
    rw [pushScan_silent _ _ _ _ _ rfl]
    simp only [bumpRef, beq_self_eq_true, if_true]
    rw [build_children]
    rfl

/-- Witness for C1: two one-byte files with equal content under one directory
produce a single lookup-table entry of refcount 2 bound by both dentries. -/
theorem c1_regular_file_dedup_witness :
    build_dentry_tree (fun l => l) emptyCaptureConfig ⟨true, false, false⟩ ['/', 's']
        (FsObj.directory [(['a'], FsObj.regular [7]), (['b'], FsObj.regular [7])])
        ⟨[], [], []⟩ =
      Except.ok
        (some (Dentry.node ['s'] FILE_ATTRIBUTE_DIRECTORY none
           [Dentry.node ['a'] FILE_ATTRIBUTE_NORMAL (some [7]) [],
            Dentry.node ['b'] FILE_ATTRIBUTE_NORMAL (some [7]) []]),
         ⟨[⟨[7], 2, 1, Residence.inSourceFile ['/', 's', '/', 'a']⟩], [], []⟩) :=
  (c1_regular_file_dedup (fun l => l) emptyCaptureConfig ⟨false, false, false⟩
      ['/'] [7] ⟨[], [], []⟩ ['/', 's'] ['a'] ['b'] (by decide) rfl (by decide)
      (by decide) (by decide) (by decide) (by decide)).2.2

/-- C4 (code bug): applying either member of a two-dentry hard-link group in
one directory where both members carry non-empty short names never fails with
`WIMLIB_ERR_INVALID_DENTRY` — the preapply scan skips the dentry being
applied, finds exactly one other DOS-named sibling, and the two members
recurse into each other forever (every fuel budget is exhausted; the C code
recurses without bound). -/
theorem c4_two_dos_names_diverge (fuel : Nat) :
    do_wim_apply_dentry_ntfs [c4d, c4e] fuel [] [] c4d =
      Except.error WimErr.fuelExhausted ∧
    do_wim_apply_dentry_ntfs [c4d, c4e] fuel [] [] c4e =
      Except.error WimErr.fuelExhausted := by
  induction fuel with
  | zero => exact ⟨rfl, rfl⟩
  | succ n ih =>
      constructor
      · have hstep : do_wim_apply_dentry_ntfs [c4d, c4e] (n + 1) [] [] c4d =
            (match do_wim_apply_dentry_ntfs [c4d, c4e] n [] [] c4e with
             | Except.error er => Except.error er
             | Except.ok (st2, tr2) => apply_body [c4d, c4e] c4d st2 tr2) := rfl
        rw [hstep, ih.2]
      · have hstep : do_wim_apply_dentry_ntfs [c4d, c4e] (n + 1) [] [] c4e =
            (match do_wim_apply_dentry_ntfs [c4d, c4e] n [] [] c4d with
             | Except.error er => Except.error er
             | Except.ok (st2, tr2) => apply_body [c4d, c4e] c4e st2 tr2) := rfl
        rw [hstep, ih.1]

theorem mem_singleton_of_length_le_one {α : Type} {l : List α} {e : α}
    (he : e ∈ l) (hl : l.length ≤ 1) : l = [e] := by
  match l, he with
  | [a], he =>
      rcases List.mem_singleton.mp he with rfl
      rfl
  | a :: b :: t, _ => simp at hl

theorem lookupExt_single (a b i : Nat) :
    lookupExt [(a, b)] i = if a == i then some b else none := by
  cases hab : (a == i) <;> simp [lookupExt, List.find?, hab]

theorem did_inj {g : List ADentry} (hids : (g.map ADentry.did).Nodup)
    {a : ADentry} (ha : a ∈ g) {b : ADentry} (hb : b ∈ g)
    (hab : a.did = b.did) : a = b := by
  induction g with
  | nil => simp at ha
  | cons x t ih =>
      rw [List.map_cons, List.nodup_cons] at hids
      rcases List.mem_cons.mp ha with rfl | ha2
      · rcases List.mem_cons.mp hb with rfl | hb2
        · rfl
        · exact absurd (hab ▸ List.mem_map_of_mem ADentry.did hb2) hids.1
      · rcases List.mem_cons.mp hb with rfl | hb2
        · exact absurd (hab ▸ List.mem_map_of_mem ADentry.did ha2) hids.1
        · exact ih hids.2 ha2 hb2

theorem shortOthers_eq (g : List ADentry) (d : ADentry) :
    (linkGroupOthers g d).filter (fun o => (o.parent == d.parent) && !(o.shortLen == 0)) =
      (g.filter (fun m => (m.parent == d.parent) && !(m.shortLen == 0))).filter
        (fun o => !(o.did == d.did)) := by
  rw [linkGroupOthers, List.filter_filter, List.filter_filter]
  exact List.filter_congr (fun a _ => Bool.and_comm _ _)

theorem apply_body_record (g : List ADentry) (d : ADentry) (tr : List AEvent) :
    apply_body g d [] tr =
      Except.ok ([(d.did, d.fullPath)],
        tr ++ [AEvent.recorded d.did d.fullPath, AEvent.created d.did,
               AEvent.streamsWritten d.did]) := by
  have hnone : (linkGroupOthers g d).find? (fun o => (lookupExt [] o.did).isSome) = none :=
    List.find?_eq_none.mpr (fun x _ => by simp [lookupExt])
  rw [apply_body, hnone]

theorem apply_body_link (g : List ADentry) (d pr : ADentry) (pp : Nat) (tr : List AEvent)
    (hids : (g.map ADentry.did).Nodup) (hprg : pr ∈ g) (hd : d.did ≠ pr.did) :
    apply_body g d [(pr.did, pp)] tr =
      Except.ok ([(pr.did, pp)], tr ++ [AEvent.linked d.did pp]) := by
  have hpred : ∀ o : ADentry,
      ((lookupExt [(pr.did, pp)] o.did).isSome) = (pr.did == o.did) := by
    intro o
    rw [lookupExt_single]
    cases h : (pr.did == o.did) <;> simp [h]
  have hmem : pr ∈ linkGroupOthers g d := by
    rw [linkGroupOthers, List.mem_filter]
    refine ⟨hprg, ?_⟩
    simp only [Bool.not_eq_eq_eq_not, Bool.not_true, beq_eq_false_iff_ne, ne_eq]
    exact fun hh => hd hh.symm
  have hiss : ((linkGroupOthers g d).find?
      (fun o => (lookupExt [(pr.did, pp)] o.did).isSome)).isSome := by
    rw [List.find?_isSome]
    exact ⟨pr, hmem, by rw [hpred]; simp⟩
  obtain ⟨x, hx⟩ := Option.isSome_iff_exists.mp hiss
  have hxg : x ∈ g := List.mem_of_mem_filter (List.mem_of_find?_eq_some hx)
  have hpx := List.find?_some hx
  rw [hpred] at hpx
  have hxid : x.did = pr.did := (Nat.beq_eq_true_eq _ _ ▸ hpx : pr.did = x.did).symm
  have hxpr : x = pr := did_inj hids hxg hprg hxid
  subst hxpr
  rw [apply_body, hx]
  simp [lookupExt_single]

theorem dwadn_noshort (g : List ADentry) (fuel : Nat) (st : ExtMap) (tr : List AEvent)
    (d : ADentry)
    (hso : (g.filter (fun m => (m.parent == d.parent) && !(m.shortLen == 0))).filter
        (fun o => !(o.did == d.did)) = []) :
    do_wim_apply_dentry_ntfs g (fuel + 1) st tr d = apply_body g d st tr := by
  rw [do_wim_apply_dentry_ntfs, shortOthers_eq, hso]
  simp

theorem dwadn_oneshort (g : List ADentry) (fuel : Nat) (st : ExtMap) (tr : List AEvent)
    (d e : ADentry)
    (hso : (g.filter (fun m => (m.parent == d.parent) && !(m.shortLen == 0))).filter
        (fun o => !(o.did == d.did)) = [e]) :
    do_wim_apply_dentry_ntfs g (fuel + 1) st tr d =
      (if (lookupExt st e.did).isNone then
         match do_wim_apply_dentry_ntfs g fuel st tr e with
         | Except.error er => Except.error er
         | Except.ok (st2, tr2) => apply_body g d st2 tr2
       else apply_body g d st tr) := by
  rw [do_wim_apply_dentry_ntfs, shortOthers_eq, hso]
  simp

theorem dwadn_nonprimary (g : List ADentry) (pr d : ADentry) (tr : List AEvent)
    (hids : (g.map ADentry.did).Nodup)
    (hdos : ∀ x ∈ g,
      (g.filter (fun m => (m.parent == x.parent) && !(m.shortLen == 0))).length ≤ 1)
    (hprg : pr ∈ g) (hdg : d ∈ g) (hd : d.did ≠ pr.did) :
    ∃ L, do_wim_apply_dentry_ntfs g 2 [(pr.did, pr.fullPath)] tr d =
        Except.ok ([(pr.did, pr.fullPath)], tr ++ L) ∧
      (∀ ev ∈ L, ∃ i, ev = AEvent.linked i pr.fullPath ∧ i ≠ pr.did) ∧
      AEvent.linked d.did pr.fullPath ∈ L := by
  have hlen := hdos d hdg
  have hone : do_wim_apply_dentry_ntfs g 2 [(pr.did, pr.fullPath)] tr d =
        apply_body g d [(pr.did, pr.fullPath)] tr →
      ∃ L, do_wim_apply_dentry_ntfs g 2 [(pr.did, pr.fullPath)] tr d =
          Except.ok ([(pr.did, pr.fullPath)], tr ++ L) ∧
        (∀ ev ∈ L, ∃ i, ev = AEvent.linked i pr.fullPath ∧ i ≠ pr.did) ∧
        AEvent.linked d.did pr.fullPath ∈ L := by
    intro hstep
    refine ⟨[AEvent.linked d.did pr.fullPath], ?_, ?_, List.mem_singleton.mpr rfl⟩
    · rw [hstep]
      exact apply_body_link g d pr pr.fullPath tr hids hprg hd
    · intro ev hev
      rcases List.mem_singleton.mp hev with rfl
      exact ⟨d.did, rfl, hd⟩
  rcases hdd : g.filter (fun m => (m.parent == d.parent) && !(m.shortLen == 0))
      with _ | ⟨e, tl⟩
  · exact hone (dwadn_noshort g 1 _ tr d (by rw [hdd]; rfl))
  · have htl : tl = [] := by
      rw [hdd] at hlen
      simp only [List.length_cons] at hlen
      exact List.length_eq_zero.mp (by omega)
    subst htl
    have hemem : e ∈ g.filter (fun m => (m.parent == d.parent) && !(m.shortLen == 0)) := by
      rw [hdd]
      exact List.mem_singleton.mpr rfl
    have heg : e ∈ g := List.mem_of_mem_filter hemem
    have hep := List.of_mem_filter hemem
    simp only [Bool.and_eq_true, beq_iff_eq, Bool.not_eq_eq_eq_not, Bool.not_true,
      beq_eq_false_iff_ne, ne_eq] at hep
    by_cases hde : e.did = d.did
    · exact hone (dwadn_noshort g 1 _ tr d (by rw [hdd]; simp [hde]))
    · have hso1 : (g.filter (fun m => (m.parent == d.parent) && !(m.shortLen == 0))).filter
          (fun o => !(o.did == d.did)) = [e] := by
        rw [hdd]
        simp [hde]
      by_cases hepr : e.did = pr.did
      · have hfound : (lookupExt [(pr.did, pr.fullPath)] e.did).isNone = false := by
          rw [lookupExt_single]
          rw [if_pos (by rw [hepr]; simp)]
          rfl
        refine hone ?_
        rw [dwadn_oneshort g 1 _ tr d e hso1, hfound]
        rfl
      · have hnone : (lookupExt [(pr.did, pr.fullPath)] e.did).isNone = true := by
          rw [lookupExt_single]
          rw [if_neg (by simp only [beq_iff_eq]; exact fun hh => hepr hh.symm)]
          rfl
        have hsoE : (g.filter (fun m => (m.parent == e.parent) && !(m.shortLen == 0))).filter
            (fun o => !(o.did == e.did)) = [] := by
          have hfn : (fun m : ADentry => (m.parent == e.parent) && !(m.shortLen == 0))
              = (fun m => (m.parent == d.parent) && !(m.shortLen == 0)) := by
            funext m
            rw [hep.1]
          rw [hfn, hdd]
          simp
        refine ⟨[AEvent.linked e.did pr.fullPath, AEvent.linked d.did pr.fullPath],
          ?_, ?_, ?_⟩
        · rw [dwadn_oneshort g 1 _ tr d e hso1, hnone]
          rw [if_pos rfl]
          rw [dwadn_noshort g 0 _ tr e hsoE]
          rw [apply_body_link g e pr pr.fullPath tr hids hprg hepr]
          show apply_body g d [(pr.did, pr.fullPath)]
              (tr ++ [AEvent.linked e.did pr.fullPath]) =
            Except.ok ([(pr.did, pr.fullPath)],
              tr ++ [AEvent.linked e.did pr.fullPath, AEvent.linked d.did pr.fullPath])
          rw [apply_body_link g d pr pr.fullPath _ hids hprg hd]
          rw [List.append_assoc]
          rfl
        · intro ev hev
          rcases List.mem_cons.mp hev with rfl | hev2
          · exact ⟨e.did, rfl, hepr⟩
          · rcases List.mem_singleton.mp hev2 with rfl
            exact ⟨d.did, rfl, hd⟩
        · exact List.mem_cons.mpr (Or.inr (List.mem_singleton.mpr rfl))

theorem dwadn_first (z : ADentry) (ds : List ADentry) (tr : List AEvent)
    (hids : (((z :: ds)).map ADentry.did).Nodup)
    (hdos : ∀ x ∈ z :: ds,
      ((z :: ds).filter (fun m => (m.parent == x.parent) && !(m.shortLen == 0))).length ≤ 1) :
    ∃ L0,
      do_wim_apply_dentry_ntfs (z :: ds) 2 [] tr z =
        Except.ok
          ([((primaryOf (z :: ds)).did, (primaryOf (z :: ds)).fullPath)],
           tr ++ (AEvent.recorded (primaryOf (z :: ds)).did (primaryOf (z :: ds)).fullPath ::
             AEvent.created (primaryOf (z :: ds)).did ::
             AEvent.streamsWritten (primaryOf (z :: ds)).did :: L0)) ∧
      (∀ ev ∈ L0, ∃ i, ev = AEvent.linked i (primaryOf (z :: ds)).fullPath ∧
        i ≠ (primaryOf (z :: ds)).did) ∧
      primaryOf (z :: ds) ∈ z :: ds ∧
      (z.did ≠ (primaryOf (z :: ds)).did →
        AEvent.linked z.did (primaryOf (z :: ds)).fullPath ∈ L0) := by
  rcases hfd : (z :: ds).find? (fun m => (m.parent == z.parent) && !(m.shortLen == 0))
      with _ | e
  · have hpr : primaryOf (z :: ds) = z := by
      simp [primaryOf, hfd]
    have hdir : (z :: ds).filter (fun m => (m.parent == z.parent) && !(m.shortLen == 0))
        = [] :=
      List.filter_eq_nil_iff.mpr (by simpa using List.find?_eq_none.mp hfd)
    refine ⟨[], ?_, by simp, by rw [hpr]; exact List.mem_cons_self z ds, ?_⟩
    · rw [dwadn_noshort (z :: ds) 1 [] tr z (by rw [hdir]; rfl)]
      rw [apply_body_record, hpr]
    · intro hzz
      exact absurd (by rw [hpr]) hzz
  · have hpr : primaryOf (z :: ds) = e := by
      simp [primaryOf, hfd]
    have heg : e ∈ z :: ds := List.mem_of_find?_eq_some hfd
    have hpe := List.find?_some hfd
    simp only [Bool.and_eq_true, beq_iff_eq, Bool.not_eq_eq_eq_not, Bool.not_true,
      beq_eq_false_iff_ne, ne_eq] at hpe
    have hdir : (z :: ds).filter (fun m => (m.parent == z.parent) && !(m.shortLen == 0))
        = [e] := by
      refine mem_singleton_of_length_le_one ?_ (hdos z (List.mem_cons_self z ds))
      rw [List.mem_filter]
      refine ⟨heg, ?_⟩
      simp [hpe.1, hpe.2]
    by_cases hez : e = z
    · subst hez
      refine ⟨[], ?_, by simp, by rw [hpr]; exact heg, ?_⟩
      · rw [dwadn_noshort (e :: ds) 1 [] tr e (by rw [hdir]; simp)]
        rw [apply_body_record, hpr]
      · intro hzz
        exact absurd (by rw [hpr]) hzz
    · have hzd : e.did ≠ z.did := fun hh =>
        hez (did_inj hids heg (List.mem_cons_self z ds) hh)
      have hso1 : ((z :: ds).filter
            (fun m => (m.parent == z.parent) && !(m.shortLen == 0))).filter
          (fun o => !(o.did == z.did)) = [e] := by
        rw [hdir]
        simp [hzd]
      have hsoE : ((z :: ds).filter
            (fun m => (m.parent == e.parent) && !(m.shortLen == 0))).filter
          (fun o => !(o.did == e.did)) = [] := by
        have hfn : (fun m : ADentry => (m.parent == e.parent) && !(m.shortLen == 0))
            = (fun m => (m.parent == z.parent) && !(m.shortLen == 0)) := by
          funext m
          rw [hpe.1]
        rw [hfn, hdir]
        simp
      refine ⟨[AEvent.linked z.did (primaryOf (z :: ds)).fullPath], ?_, ?_,
        by rw [hpr]; exact heg, ?_⟩
      · rw [dwadn_oneshort (z :: ds) 1 [] tr z e hso1]
        rw [if_pos (show (lookupExt [] e.did).isNone = true from rfl)]
        rw [dwadn_noshort (z :: ds) 0 [] tr e hsoE]
        rw [apply_body_record]
        show apply_body (z :: ds) z [(e.did, e.fullPath)]
            (tr ++ [AEvent.recorded e.did e.fullPath, AEvent.created e.did,
              AEvent.streamsWritten e.did]) = _
        rw [apply_body_link (z :: ds) z e e.fullPath _ hids heg
          (fun hh => hzd hh.symm)]
        rw [hpr, List.append_assoc]
        rfl
      · intro ev hev
        rcases List.mem_singleton.mp hev with rfl
        exact ⟨z.did, rfl, by rw [hpr]; exact fun hh => hzd hh.symm⟩
      · intro _
        exact List.mem_singleton.mpr rfl

theorem wim_apply_fold (g : List ADentry) (pr : ADentry)
    (hids : (g.map ADentry.did).Nodup)
    (hdos : ∀ x ∈ g,
      (g.filter (fun m => (m.parent == x.parent) && !(m.shortLen == 0))).length ≤ 1)
    (hprg : pr ∈ g) :
    ∀ ds, (∀ x ∈ ds, x ∈ g) → ∀ tr,
      ∃ L, wim_apply_link_group g 2 [(pr.did, pr.fullPath)] tr ds =
          Except.ok ([(pr.did, pr.fullPath)], tr ++ L) ∧
        (∀ ev ∈ L, ∃ i, ev = AEvent.linked i pr.fullPath ∧ i ≠ pr.did) ∧
        (∀ m ∈ ds, m.did ≠ pr.did → AEvent.linked m.did pr.fullPath ∈ L) := by
  intro ds
  induction ds with
  | nil =>
      intro _ tr
      refine ⟨[], ?_, by simp, by simp⟩
      rw [List.append_nil]
      rfl
  | cons d ds ih =>
      intro hsub tr
      by_cases hskip : (lookupExt [(pr.did, pr.fullPath)] d.did).isSome = true
      · have hdpr : d.did = pr.did := by
          rw [lookupExt_single] at hskip
          by_cases h : (pr.did == d.did) = true
          · exact ((Nat.beq_eq_true_eq _ _).mp h).symm
          · rw [if_neg h] at hskip
            simp at hskip
        have hstep : wim_apply_link_group g 2 [(pr.did, pr.fullPath)] tr (d :: ds) =
            wim_apply_link_group g 2 [(pr.did, pr.fullPath)] tr ds := by
          rw [wim_apply_link_group, if_pos hskip]
        obtain ⟨L, hL1, hL2, hL3⟩ := ih (fun x hx => hsub x (List.mem_cons_of_mem d hx)) tr
        refine ⟨L, by rw [hstep]; exact hL1, hL2, ?_⟩
        intro m hm hmp
        rcases List.mem_cons.mp hm with rfl | hm2
        · exact absurd hdpr hmp
        · exact hL3 m hm2 hmp
      · have hdpr : d.did ≠ pr.did := by
          intro hh
          apply hskip
          rw [lookupExt_single, if_pos (by rw [hh]; simp)]
          rfl
        obtain ⟨L1, hs1, hs2, hs3⟩ := dwadn_nonprimary g pr d tr hids hdos hprg
          (hsub d (List.mem_cons_self d ds)) hdpr
        obtain ⟨L2, hL1, hL2, hL3⟩ :=
          ih (fun x hx => hsub x (List.mem_cons_of_mem d hx)) (tr ++ L1)
        refine ⟨L1 ++ L2, ?_, ?_, ?_⟩
        · rw [wim_apply_link_group, if_neg hskip, hs1]
          show wim_apply_link_group g 2 [(pr.did, pr.fullPath)] (tr ++ L1) ds = _
          rw [hL1, List.append_assoc]
        · intro ev hev
          rcases List.mem_append.mp hev with hev1 | hev2
          · exact hs2 ev hev1
          · exact hL2 ev hev2
        · intro m hm hmp
          rcases List.mem_cons.mp hm with rfl | hm2
          · exact List.mem_append.mpr (Or.inl hs3)
          · exact List.mem_append.mpr (Or.inr (hL3 m hm2 hmp))

/-- C5: applying a hard-link group of non-directory dentries (each directory
containing at most one short-named member, as invariant I4 requires) fully
populates the primary member — records its `extracted_file` path, creates it
and writes its streams — before any other member's action; every event after
that prefix is a hard-link creation to the primary's recorded path (so no
other member is created as a file and no stream is ever written again), and
every non-primary member is indeed hard-linked to that path. -/
theorem c5_hardlink_primary_first (g : List ADentry) (hg : g ≠ [])
    (hids : (g.map ADentry.did).Nodup)
    (hdos : ∀ x ∈ g,
      (g.filter (fun m => (m.parent == x.parent) && !(m.shortLen == 0))).length ≤ 1) :
    ∃ rest,
      wim_apply_link_group g 2 [] [] g =
        Except.ok ([((primaryOf g).did, (primaryOf g).fullPath)],
          AEvent.recorded (primaryOf g).did (primaryOf g).fullPath ::
            AEvent.created (primaryOf g).did ::
            AEvent.streamsWritten (primaryOf g).did :: rest) ∧
      (∀ ev ∈ rest, ∃ i, ev = AEvent.linked i (primaryOf g).fullPath ∧
        i ≠ (primaryOf g).did) ∧
      (∀ m ∈ g, m.did ≠ (primaryOf g).did →
        AEvent.linked m.did (primaryOf g).fullPath ∈ rest) := by
  rcases g with _ | ⟨z, ds⟩
  · exact absurd rfl hg
  · obtain ⟨L0, h1, h2, hprmem, h4⟩ := dwadn_first z ds [] hids hdos
    obtain ⟨L2, hf1, hf2, hf3⟩ := wim_apply_fold (z :: ds) (primaryOf (z :: ds))
      hids hdos hprmem ds (fun x hx => List.mem_cons_of_mem z hx)
      ([] ++ (AEvent.recorded (primaryOf (z :: ds)).did (primaryOf (z :: ds)).fullPath ::
        AEvent.created (primaryOf (z :: ds)).did ::
        AEvent.streamsWritten (primaryOf (z :: ds)).did :: L0))
    refine ⟨L0 ++ L2, ?_, ?_, ?_⟩
    · rw [wim_apply_link_group,
        if_neg (show ¬(lookupExt [] z.did).isSome = true from by simp [lookupExt])]
      rw [h1]
      show wim_apply_link_group (z :: ds) 2
          [((primaryOf (z :: ds)).did, (primaryOf (z :: ds)).fullPath)]
          ([] ++ (AEvent.recorded (primaryOf (z :: ds)).did (primaryOf (z :: ds)).fullPath ::
            AEvent.created (primaryOf (z :: ds)).did ::
            AEvent.streamsWritten (primaryOf (z :: ds)).did :: L0)) ds = _
      rw [hf1]
      rfl
    · intro ev hev
      rcases List.mem_append.mp hev with hev1 | hev2
      · exact h2 ev hev1
      · exact hf2 ev hev2
    · intro m hm hmp
      rcases List.mem_cons.mp hm with rfl | hm2
      · exact List.mem_append.mpr (Or.inl (h4 hmp))
      · exact List.mem_append.mpr (Or.inr (hf3 m hm2 hmp))

/-- Witness for C5 on spec scenario 6: a three-member group in one directory
whose second-visited member carries the DOS name; the primary is extracted
first and both other members become hard links to its path. -/
theorem c5_hardlink_primary_first_witness :
    ∃ rest,
      wim_apply_link_group [⟨1, 0, 0, 101⟩, ⟨2, 0, 24, 102⟩, ⟨3, 0, 0, 103⟩] 2 [] []
          [⟨1, 0, 0, 101⟩, ⟨2, 0, 24, 102⟩, ⟨3, 0, 0, 103⟩] =
        Except.ok ([(2, 102)],
          AEvent.recorded 2 102 :: AEvent.created 2 :: AEvent.streamsWritten 2 :: rest) ∧
      (∀ ev ∈ rest, ∃ i, ev = AEvent.linked i 102 ∧ i ≠ 2) ∧
      (∀ m ∈ [(⟨1, 0, 0, 101⟩ : ADentry), ⟨2, 0, 24, 102⟩, ⟨3, 0, 0, 103⟩],
        m.did ≠ 2 → AEvent.linked m.did 102 ∈ rest) :=
  c5_hardlink_primary_first [⟨1, 0, 0, 101⟩, ⟨2, 0, 24, 102⟩, ⟨3, 0, 0, 103⟩]
    (by decide) (by decide) (by decide)
